import Mathlib

set_option maxRecDepth 8000

/- Shallow embedding of src/r2c.go: a line-oriented changelog parser that
   enriches a list of releases with structured notes.  Machine strings are
   modelled as Lean `String` (Go indexing and prefix tests in the source act
   on ASCII bytes, which coincide with leading `Char`s for the prefixes and
   substrings the source uses). -/

/-- Characters of the Go cutset " \t\n\v\f\r" passed to strings.TrimRight at
r2c.go:144. -/
def isTrimCut (c : Char) : Bool :=
  c = ' ' || c = '\t' || c = '\n' || c = '\x0b' || c = '\x0c' || c = '\r'

/-- Model of strings.TrimRight(s, " \t\n\v\f\r") (r2c.go:144). -/
def trimRightGo (s : String) : String :=
  String.mk ((s.data.reverse.dropWhile isTrimCut).reverse)

/-- White space recognised by Go's unicode.IsSpace, used by strings.TrimSpace
at r2c.go:150. -/
def isSpaceGo (c : Char) : Bool :=
  c = ' ' || c = '\t' || c = '\n' || c = '\x0b' || c = '\x0c' || c = '\r' ||
  c = '\x85' || c = '\xa0' || c = '\u1680' || ('\u2000' ≤ c && c ≤ '\u200a') ||
  c = '\u2028' || c = '\u2029' || c = '\u202f' || c = '\u205f' || c = '\u3000'

/-- Model of strings.TrimSpace (r2c.go:150). -/
def trimSpaceGo (s : String) : String :=
  String.mk (((s.data.dropWhile isSpaceGo).reverse.dropWhile isSpaceGo).reverse)

/-- Leading-segment test: Go's line[:n] == p comparisons (r2c.go:166,179,198). -/
def prefOf : List Char → List Char → Bool
  | [], _ => true
  | _ :: _, [] => false
  | a :: as, b :: bs => if a = b then prefOf as bs else false

/-- Model of strings.Contains(l, sub) (r2c.go:180,185,190). -/
def containsSub (sub l : List Char) : Bool :=
  match l with
  | [] => prefOf sub []
  | c :: cs => prefOf sub (c :: cs) || containsSub sub cs

/-- Match of the Go regexp [0-9]+\.[0-9]+\.[0-9]+ (r2c.go:133) anchored at the
head of l: three maximal nonempty digit runs separated by dots.  For this
pattern a greedy run is forced (a shorter run would have to be followed by a
dot where a digit stands), so the anchored RE2 match is exactly this. -/
def matchVersionAt (l : List Char) : Option (List Char) :=
  let d1 := l.takeWhile Char.isDigit
  let r1 := l.dropWhile Char.isDigit
  if d1 = [] then none else
  match r1 with
  | '.' :: s1 =>
    let d2 := s1.takeWhile Char.isDigit
    let r2 := s1.dropWhile Char.isDigit
    if d2 = [] then none else
    match r2 with
    | '.' :: s2 =>
      let d3 := s2.takeWhile Char.isDigit
      if d3 = [] then none else some (d1 ++ '.' :: d2 ++ '.' :: d3)
    | _ => none
  | _ => none

/-- Leftmost match of the version regexp, as regexp.Find returns it
(r2c.go:169); none models the nil return, which stringifies to "". -/
def findVersion : List Char → Option (List Char)
  | [] => none
  | c :: cs =>
    match matchVersionAt (c :: cs) with
    | some m => some m
    | none => findVersion cs

/-- Model of validVersion.MatchString (r2c.go:175). -/
def matchesVersion (s : String) : Bool :=
  (findVersion s.data).isSome

/-- Go struct Commit (r2c.go:14). -/
structure Commit where
  sha : String
  url : String
deriving Repr, DecidableEq

/-- Go struct ReleaseNotes (r2c.go:19). -/
structure ReleaseNotes where
  releaseName : String
  version : String
  fixes : List String
  features : List String
  maintenance : List String
  changes : List String
deriving Repr, DecidableEq

/-- Go struct Release (r2c.go:28); the *ReleaseNotes pointer becomes Option. -/
structure Release where
  name : String
  zipballUrl : String
  tarballUrl : String
  commit : Commit
  releaseNotes : Option ReleaseNotes
deriving Repr, DecidableEq

/-- Zero value of ReleaseNotes, what &ReleaseNotes{} allocates (r2c.go:84). -/
def emptyNotes : ReleaseNotes :=
  { releaseName := "", version := "", fixes := [], features := [],
    maintenance := [], changes := [] }

/-- Model of insertFix (r2c.go:80): every element whose Name equals name gets
its notes lazily initialised, releaseName/version overwritten, and line
appended to Fixes. -/
def insertFix (release name line : String) (rs : List Release) : List Release :=
  rs.map fun r =>
    if r.name = name then
      let n := r.releaseNotes.getD emptyNotes
      { r with releaseNotes := some { n with releaseName := release,
                                             version := name,
                                             fixes := n.fixes ++ [line] } }
    else r

/-- Model of insertFeature (r2c.go:93). -/
def insertFeature (release name line : String) (rs : List Release) : List Release :=
  rs.map fun r =>
    if r.name = name then
      let n := r.releaseNotes.getD emptyNotes
      { r with releaseNotes := some { n with releaseName := release,
                                             version := name,
                                             features := n.features ++ [line] } }
    else r

/-- Model of insertMaintenance (r2c.go:106). -/
def insertMaintenance (release name line : String) (rs : List Release) : List Release :=
  rs.map fun r =>
    if r.name = name then
      let n := r.releaseNotes.getD emptyNotes
      { r with releaseNotes := some { n with releaseName := release,
                                             version := name,
                                             maintenance := n.maintenance ++ [line] } }
    else r

/-- Model of insertChange (r2c.go:119). -/
def insertChange (release name line : String) (rs : List Release) : List Release :=
  rs.map fun r =>
    if r.name = name then
      let n := r.releaseNotes.getD emptyNotes
      { r with releaseNotes := some { n with releaseName := release,
                                             version := name,
                                             changes := n.changes ++ [line] } }
    else r

/-- Local state of parseChangelog (r2c.go:135) together with the global
releases slice it mutates (r2c.go:36). -/
structure ParserState where
  release : String
  name : String
  comment : String
  fixes : Bool
  features : Bool
  maintenance : Bool
  releases : List Release
deriving Repr, DecidableEq

/-- State at the top of parseChangelog (r2c.go:135): empty strings, all
category flags false, the releases slice as loaded from the tag list. -/
def initState (rs : List Release) : ParserState :=
  { release := "", name := "", comment := "", fixes := false,
    features := false, maintenance := false, releases := rs }

/-- Dispatch of a buffered comment (r2c.go:154): the first set category flag
selects the insert, defaulting to insertChange. -/
def dispatchComment (st : ParserState) : List Release :=
  if st.fixes then insertFix st.release st.name st.comment st.releases
  else if st.features then insertFeature st.release st.name st.comment st.releases
  else if st.maintenance then insertMaintenance st.release st.name st.comment st.releases
  else insertChange st.release st.name st.comment st.releases

/-- Handle-buffered-comments block of parseChangelog (r2c.go:153): on a
boundary line a nonempty buffered comment is dispatched; the buffer itself is
left as it is. -/
def flushStage (st : ParserState) : ParserState :=
  if st.comment ≠ "" then { st with releases := dispatchComment st } else st

/-- Releases block of parseChangelog (r2c.go:166): a line with prefix "## "
stores the remainder as the release heading, derives the version tag from the
first regexp match ("v" alone when there is none), clears the comment buffer
and all category flags. -/
def headingStage (line : String) (st : ParserState) : ParserState :=
  if prefOf "## ".data line.data then
    let rel := String.mk (line.data.drop 3)
    { st with release := rel,
              name := "v" ++ String.mk ((findVersion rel.data).getD []),
              comment := "", fixes := false, features := false,
              maintenance := false }
  else st

/-- Fixes/Features/Maintenance block of parseChangelog (r2c.go:179): on a line
with prefix "### " the first of the substrings "Fixes", "Features",
"Chore & Maintenance" found sets the category flags and clears the comment
buffer; none found leaves the state as it is. -/
def categoryStage (line : String) (st : ParserState) : ParserState :=
  if prefOf "### ".data line.data then
    if containsSub "Fixes".data line.data then
      { st with comment := "", fixes := true, features := false,
                maintenance := false }
    else if containsSub "Features".data line.data then
      { st with comment := "", fixes := false, features := true,
                maintenance := false }
    else if containsSub "Chore & Maintenance".data line.data then
      { st with comment := "", fixes := false, features := false,
                maintenance := true }
    else st
  else st

/-- Comments block of parseChangelog (r2c.go:198): a line with prefix "* "
replaces the comment buffer with the remainder. -/
def bulletStage (line : String) (st : ParserState) : ParserState :=
  if prefOf "* ".data line.data then
    { st with comment := String.mk (line.data.drop 2) }
  else st

/-- One iteration of the scanner loop of parseChangelog (r2c.go:143): trim the
line, skip it when empty, buffer a continuation, otherwise flush the buffered
comment, then handle release heading, the version gate, category heading and
bullet in source order. -/
def stepLine (st : ParserState) (raw : String) : ParserState :=
  let line := trimRightGo raw
  match line.data with
  | [] => st
  | c :: _ =>
    if c ≠ '#' ∧ c ≠ '*' then
      { st with comment := st.comment ++ "\n" ++ trimSpaceGo line }
    else
      let st := flushStage st
      let st := headingStage line st
      if matchesVersion st.release = false then st
      else bulletStage line (categoryStage line st)

/-- Whole scanner loop of parseChangelog (r2c.go:143) over a list of lines. -/
def parseLines (lines : List String) (rs : List Release) : ParserState :=
  lines.foldl stepLine (initState rs)

/-- Strip one trailing carriage return from a scanned line, as the dropCR
helper of bufio.ScanLines does. -/
def dropCR (s : String) : String :=
  match s.data.getLast? with
  | some '\r' => String.mk s.data.dropLast
  | _ => s

/-- Split a character sequence at every newline (the token boundaries of
bufio.ScanLines); a trailing newline still yields a final empty piece here. -/
def splitNl : List Char → List (List Char)
  | [] => [[]]
  | c :: cs =>
    if c = '\n' then [] :: splitNl cs
    else
      match splitNl cs with
      | [] => [[c]]
      | l :: ls => (c :: l) :: ls

/-- Lines produced by bufio.NewScanner over the changelog text (r2c.go:142):
split at newlines; an input ending in a newline yields no empty final token;
each token loses one trailing carriage return. -/
def splitLinesGo (s : String) : List String :=
  let ps := (splitNl s.data).map String.mk
  (if ps.getLast? = some "" then ps.dropLast else ps).map dropCR

/-- Model of parseChangelog (r2c.go:132) acting on an explicit store: the
final value of the releases slice after the scanner loop; nothing happens at
end of input. -/
def parseChangelog (changelog : String) (rs : List Release) : List Release :=
  (parseLines (splitLinesGo changelog) rs).releases

/-- Test of a line for the boundary condition of r2c.go:149: after trimming it
is nonempty and starts with '#' or '*'.  Only such lines reach the
flush-buffered-comment block at r2c.go:153. -/
def isBoundaryLine (raw : String) : Bool :=
  match (trimRightGo raw).data with
  | [] => false
  | c :: _ => c = '#' || c = '*'

/-- Fields of a Release other than its optional notes: the data the parser
must leave untouched. -/
def frameSig (r : Release) : String × String × String × Commit :=
  (r.name, r.zipballUrl, r.tarballUrl, r.commit)

/-- JSON value tree, the shape encoding/json exchanges for this data model
(r2c.go:215, r2c.go:235): strings, arrays and key-ordered objects. -/
inductive JVal where
  | str : String → JVal
  | arr : List JVal → JVal
  | obj : List (String × JVal) → JVal

/-- Marshalling of Commit (r2c.go:14): both fields are tagged omitempty, and
an empty string is empty for encoding/json. -/
def Commit.toJson (c : Commit) : JVal :=
  JVal.obj ((if c.sha = "" then [] else [("sha", JVal.str c.sha)]) ++
            (if c.url = "" then [] else [("url", JVal.str c.url)]))

/-- Marshalling of ReleaseNotes (r2c.go:19): every field omitempty; empty
strings and empty slices are omitted. -/
def ReleaseNotes.toJson (n : ReleaseNotes) : JVal :=
  JVal.obj
    ((if n.releaseName = "" then [] else [("release_name", JVal.str n.releaseName)]) ++
     (if n.version = "" then [] else [("version", JVal.str n.version)]) ++
     (if n.fixes = [] then [] else [("fixes", JVal.arr (n.fixes.map JVal.str))]) ++
     (if n.features = [] then [] else [("features", JVal.arr (n.features.map JVal.str))]) ++
     (if n.maintenance = [] then [] else [("maintenance", JVal.arr (n.maintenance.map JVal.str))]) ++
     (if n.changes = [] then [] else [("changes", JVal.arr (n.changes.map JVal.str))]))

/-- Marshalling of Release (r2c.go:28): string fields omitempty; the commit
field is a struct value, which encoding/json never treats as empty, so it is
always emitted; the notes pointer is omitted exactly when nil. -/
def Release.toJson (r : Release) : JVal :=
  JVal.obj
    ((if r.name = "" then [] else [("name", JVal.str r.name)]) ++
     (if r.zipballUrl = "" then [] else [("zipball_url", JVal.str r.zipballUrl)]) ++
     (if r.tarballUrl = "" then [] else [("tarball_url", JVal.str r.tarballUrl)]) ++
     [("commit", r.commit.toJson)] ++
     (match r.releaseNotes with
      | none => []
      | some n => [("release_notes", n.toJson)]))

/-- Marshalling of the releases slice (json.Marshal at r2c.go:235). -/
def serializeReleases (rs : List Release) : JVal :=
  JVal.arr (rs.map Release.toJson)

/-- Field lookup of encoding/json unmarshalling: first pair with the key. -/
def lookupKey (kvs : List (String × JVal)) (k : String) : Option JVal :=
  match kvs with
  | [] => none
  | (k', v) :: rest => if k' = k then some v else lookupKey rest k

/-- Unmarshalling of a string field: an absent or non-string value leaves the
Go zero value "". -/
def asString (j : Option JVal) : String :=
  match j with
  | some (JVal.str s) => s
  | _ => ""

/-- Unmarshalling of a []string field: an absent value leaves the nil slice,
modelled as the empty list. -/
def asStrList (j : Option JVal) : List String :=
  match j with
  | some (JVal.arr js) => js.map fun v => match v with | JVal.str s => s | _ => ""
  | _ => []

/-- Unmarshalling of Commit. -/
def Commit.fromJson (j : JVal) : Commit :=
  match j with
  | JVal.obj kvs => { sha := asString (lookupKey kvs "sha"),
                      url := asString (lookupKey kvs "url") }
  | _ => { sha := "", url := "" }

/-- Unmarshalling of ReleaseNotes. -/
def ReleaseNotes.fromJson (j : JVal) : ReleaseNotes :=
  match j with
  | JVal.obj kvs =>
    { releaseName := asString (lookupKey kvs "release_name"),
      version := asString (lookupKey kvs "version"),
      fixes := asStrList (lookupKey kvs "fixes"),
      features := asStrList (lookupKey kvs "features"),
      maintenance := asStrList (lookupKey kvs "maintenance"),
      changes := asStrList (lookupKey kvs "changes") }
  | _ => emptyNotes

/-- Unmarshalling of Release: an absent release_notes key leaves the nil
pointer, an absent commit key leaves the zero Commit. -/
def Release.fromJson (j : JVal) : Release :=
  match j with
  | JVal.obj kvs =>
    { name := asString (lookupKey kvs "name"),
      zipballUrl := asString (lookupKey kvs "zipball_url"),
      tarballUrl := asString (lookupKey kvs "tarball_url"),
      commit := (match lookupKey kvs "commit" with
                 | some c => Commit.fromJson c
                 | none => { sha := "", url := "" }),
      releaseNotes := (match lookupKey kvs "release_notes" with
                       | some n => some (ReleaseNotes.fromJson n)
                       | none => none) }
  | _ => { name := "", zipballUrl := "", tarballUrl := "",
           commit := { sha := "", url := "" }, releaseNotes := none }

/-- Unmarshalling of the releases slice (json.Unmarshal at r2c.go:215 with the
same array-of-objects format the program writes). -/
def deserializeReleases (j : JVal) : List Release :=
  match j with
  | JVal.arr js => js.map Release.fromJson
  | _ => []

/-- Store with the single release "v24.0.0" of the first testable property. -/
def store1 : List Release :=
  [{ name := "v24.0.0", zipballUrl := "zip", tarballUrl := "tar",
     commit := { sha := "sha", url := "url" }, releaseNotes := none }]

/-- Store whose only release name, "v23.0.0", matches no parsed version. -/
def storeOther : List Release :=
  [{ name := "v23.0.0", zipballUrl := "zip", tarballUrl := "tar",
     commit := { sha := "sha", url := "url" }, releaseNotes := none }]

/-- Store with the single release "v1.0.0". -/
def storeV1 : List Release :=
  [{ name := "v1.0.0", zipballUrl := "z1", tarballUrl := "t1",
     commit := { sha := "s1", url := "u1" }, releaseNotes := none }]

/-- Store containing a release whose name is the empty string. -/
def storeEmptyName : List Release :=
  [{ name := "", zipballUrl := "z", tarballUrl := "t",
     commit := { sha := "s", url := "u" }, releaseNotes := none }]

/-- First of two distinct releases sharing the name "v9.0.0". -/
def dupA : Release :=
  { name := "v9.0.0", zipballUrl := "za", tarballUrl := "ta",
    commit := { sha := "sa", url := "ua" }, releaseNotes := none }

/-- Second of two distinct releases sharing the name "v9.0.0". -/
def dupB : Release :=
  { name := "v9.0.0", zipballUrl := "zb", tarballUrl := "tb",
    commit := { sha := "sb", url := "ub" }, releaseNotes := none }

/-- Store with two distinct releases both named "v9.0.0". -/
def storeDup : List Release := [dupA, dupB]

/-- Image of a store element whose name matches under insertFix (r2c.go:83). -/
def updFix (rel nm c : String) (r : Release) : Release :=
  { r with releaseNotes := some { r.releaseNotes.getD emptyNotes with
      releaseName := rel, version := nm,
      fixes := (r.releaseNotes.getD emptyNotes).fixes ++ [c] } }

/-- Image of a store element whose name matches under insertFeature (r2c.go:96). -/
def updFeature (rel nm c : String) (r : Release) : Release :=
  { r with releaseNotes := some { r.releaseNotes.getD emptyNotes with
      releaseName := rel, version := nm,
      features := (r.releaseNotes.getD emptyNotes).features ++ [c] } }

/-- Image of a store element whose name matches under insertMaintenance (r2c.go:109). -/
def updMaintenance (rel nm c : String) (r : Release) : Release :=
  { r with releaseNotes := some { r.releaseNotes.getD emptyNotes with
      releaseName := rel, version := nm,
      maintenance := (r.releaseNotes.getD emptyNotes).maintenance ++ [c] } }

/-- Image of a store element whose name matches under insertChange (r2c.go:122). -/
def updChange (rel nm c : String) (r : Release) : Release :=
  { r with releaseNotes := some { r.releaseNotes.getD emptyNotes with
      releaseName := rel, version := nm,
      changes := (r.releaseNotes.getD emptyNotes).changes ++ [c] } }

/-- Store store1 after one fixes entry "fixed the thing" has been attached. -/
def store1Fixed : List Release :=
  [{ name := "v24.0.0", zipballUrl := "zip", tarballUrl := "tar",
     commit := { sha := "sha", url := "url" },
     releaseNotes := some { releaseName := "jest 24.0.0", version := "v24.0.0",
                            fixes := ["fixed the thing"], features := [],
                            maintenance := [], changes := [] } }]

/-- Store storeV1 after the comment "dup" has been appended twice to changes. -/
def storeV1DoubleDup : List Release :=
  [{ name := "v1.0.0", zipballUrl := "z1", tarballUrl := "t1",
     commit := { sha := "s1", url := "u1" },
     releaseNotes := some { releaseName := "jest 1.0.0", version := "v1.0.0",
                            fixes := [], features := [], maintenance := [],
                            changes := ["dup", "dup"] } }]

/-- Store storeV1 after one accumulated two-line changes entry. -/
def storeV1Multiline : List Release :=
  [{ name := "v1.0.0", zipballUrl := "z1", tarballUrl := "t1",
     commit := { sha := "s1", url := "u1" },
     releaseNotes := some { releaseName := "jest 1.0.0", version := "v1.0.0",
                            fixes := [], features := [], maintenance := [],
                            changes := ["first line\nsecond line"] } }]

/-- Parser state inside the section of release "jest 1.0.0", before any
category heading has been seen. -/
def catState : ParserState :=
  { release := "jest 1.0.0", name := "v1.0.0", comment := "", fixes := false,
    features := false, maintenance := false, releases := storeV1 }

/- Helper lemmas about the embedded definitions. -/

theorem prefOf_eq_true_iff (p l : List Char) : prefOf p l = true ↔ ∃ t, l = p ++ t := by
  induction p generalizing l with
  | nil => simp [prefOf]
  | cons a as ih =>
    cases l with
    | nil => simp [prefOf]
    | cons b bs =>
      by_cases hab : a = b
      · subst hab
        simp [prefOf, ih]
      · simp only [prefOf, if_neg hab, List.cons_append, List.cons.injEq]
        constructor
        · intro h
          cases h
        · rintro ⟨t, hb, -⟩
          exact absurd hb.symm hab

theorem trimRightGo_prefix (raw : String) :
    ∃ t, raw.data = (trimRightGo raw).data ++ t := by
  refine ⟨(raw.data.reverse.takeWhile isTrimCut).reverse, ?_⟩
  simp only [trimRightGo]
  rw [← List.reverse_append, List.takeWhile_append_dropWhile, List.reverse_reverse]

theorem prefOf_of_trim (p : List Char) (raw : String)
    (h : prefOf p (trimRightGo raw).data = true) : prefOf p raw.data = true := by
  obtain ⟨t, ht⟩ := (prefOf_eq_true_iff _ _).mp h
  obtain ⟨u, hu⟩ := trimRightGo_prefix raw
  exact (prefOf_eq_true_iff _ _).mpr ⟨t ++ u, by rw [hu, ht, List.append_assoc]⟩

theorem string_append_data (a b : String) : (a ++ b).data = a.data ++ b.data := by
  cases a
  cases b
  rfl

theorem comment_extend_ne (a b : String) : a ++ "\n" ++ b ≠ "" := by
  intro h
  have hd := congrArg String.data h
  rw [string_append_data, string_append_data] at hd
  simp at hd

theorem string_append_nil (a : String) : a ++ "" = a := by
  cases a with
  | mk l =>
    show String.mk (l ++ []) = String.mk l
    rw [List.append_nil]

theorem insertFix_frame (a b c : String) (rs : List Release) :
    (insertFix a b c rs).map frameSig = rs.map frameSig := by
  unfold insertFix
  rw [List.map_map]
  refine List.map_congr_left ?_
  intro r _
  by_cases h : r.name = b <;> simp [h, frameSig]

theorem insertFeature_frame (a b c : String) (rs : List Release) :
    (insertFeature a b c rs).map frameSig = rs.map frameSig := by
  unfold insertFeature
  rw [List.map_map]
  refine List.map_congr_left ?_
  intro r _
  by_cases h : r.name = b <;> simp [h, frameSig]

theorem insertMaintenance_frame (a b c : String) (rs : List Release) :
    (insertMaintenance a b c rs).map frameSig = rs.map frameSig := by
  unfold insertMaintenance
  rw [List.map_map]
  refine List.map_congr_left ?_
  intro r _
  by_cases h : r.name = b <;> simp [h, frameSig]

theorem insertChange_frame (a b c : String) (rs : List Release) :
    (insertChange a b c rs).map frameSig = rs.map frameSig := by
  unfold insertChange
  rw [List.map_map]
  refine List.map_congr_left ?_
  intro r _
  by_cases h : r.name = b <;> simp [h, frameSig]

theorem dispatchComment_frame (st : ParserState) :
    (dispatchComment st).map frameSig = st.releases.map frameSig := by
  unfold dispatchComment
  split_ifs <;>
    first
      | exact insertFix_frame _ _ _ _
      | exact insertFeature_frame _ _ _ _
      | exact insertMaintenance_frame _ _ _ _
      | exact insertChange_frame _ _ _ _

theorem flushStage_frame (st : ParserState) :
    (flushStage st).releases.map frameSig = st.releases.map frameSig := by
  unfold flushStage
  split <;> simp [dispatchComment_frame]

theorem headingStage_releases (line : String) (st : ParserState) :
    (headingStage line st).releases = st.releases := by
  unfold headingStage
  split <;> rfl

theorem categoryStage_releases (line : String) (st : ParserState) :
    (categoryStage line st).releases = st.releases := by
  unfold categoryStage
  split_ifs <;> rfl

theorem bulletStage_releases (line : String) (st : ParserState) :
    (bulletStage line st).releases = st.releases := by
  unfold bulletStage
  split <;> rfl

theorem stepLine_frame (st : ParserState) (raw : String) :
    (stepLine st raw).releases.map frameSig = st.releases.map frameSig := by
  rcases h : (trimRightGo raw).data with _ | ⟨c, t⟩
  · simp [stepLine, h]
  · simp only [stepLine, h]
    by_cases hcont : c ≠ '#' ∧ c ≠ '*'
    · rw [if_pos hcont]
    · rw [if_neg hcont]
      split
      · rw [headingStage_releases, flushStage_frame]
      · rw [bulletStage_releases, categoryStage_releases, headingStage_releases,
            flushStage_frame]

theorem parseLines_frame (lines : List String) (st : ParserState) :
    ((lines.foldl stepLine st).releases).map frameSig = st.releases.map frameSig := by
  induction lines generalizing st with
  | nil => rfl
  | cons l rest ih => rw [List.foldl_cons, ih, stepLine_frame]

theorem flushStage_release (st : ParserState) : (flushStage st).release = st.release := by
  unfold flushStage
  split <;> rfl

theorem flushStage_name (st : ParserState) : (flushStage st).name = st.name := by
  unfold flushStage
  split <;> rfl

theorem flushStage_comment (st : ParserState) : (flushStage st).comment = st.comment := by
  unfold flushStage
  split <;> rfl

theorem flushStage_fixes (st : ParserState) : (flushStage st).fixes = st.fixes := by
  unfold flushStage
  split <;> rfl

theorem flushStage_features (st : ParserState) : (flushStage st).features = st.features := by
  unfold flushStage
  split <;> rfl

theorem flushStage_maintenance (st : ParserState) :
    (flushStage st).maintenance = st.maintenance := by
  unfold flushStage
  split <;> rfl

theorem categoryStage_name (line : String) (st : ParserState) :
    (categoryStage line st).name = st.name := by
  unfold categoryStage
  split_ifs <;> rfl

theorem categoryStage_release (line : String) (st : ParserState) :
    (categoryStage line st).release = st.release := by
  unfold categoryStage
  split_ifs <;> rfl

theorem bulletStage_name (line : String) (st : ParserState) :
    (bulletStage line st).name = st.name := by
  unfold bulletStage
  split <;> rfl

theorem bulletStage_release (line : String) (st : ParserState) :
    (bulletStage line st).release = st.release := by
  unfold bulletStage
  split <;> rfl

theorem stepLine_nonBoundary (st : ParserState) (raw : String)
    (h : isBoundaryLine raw = false) : (stepLine st raw).releases = st.releases := by
  unfold isBoundaryLine at h
  rcases hd : (trimRightGo raw).data with _ | ⟨c, t⟩
  · simp [stepLine, hd]
  · rw [hd] at h
    simp only [Bool.or_eq_false_iff, decide_eq_false_iff_not] at h
    simp [stepLine, hd, if_pos h]

theorem insertFix_noMatch (a b c : String) (rs : List Release)
    (h : ∀ r ∈ rs, r.name ≠ b) : insertFix a b c rs = rs := by
  unfold insertFix
  conv_rhs => rw [← List.map_id rs]
  refine List.map_congr_left ?_
  intro r hr
  rw [if_neg (h r hr)]
  rfl

theorem insertFeature_noMatch (a b c : String) (rs : List Release)
    (h : ∀ r ∈ rs, r.name ≠ b) : insertFeature a b c rs = rs := by
  unfold insertFeature
  conv_rhs => rw [← List.map_id rs]
  refine List.map_congr_left ?_
  intro r hr
  rw [if_neg (h r hr)]
  rfl

theorem insertMaintenance_noMatch (a b c : String) (rs : List Release)
    (h : ∀ r ∈ rs, r.name ≠ b) : insertMaintenance a b c rs = rs := by
  unfold insertMaintenance
  conv_rhs => rw [← List.map_id rs]
  refine List.map_congr_left ?_
  intro r hr
  rw [if_neg (h r hr)]
  rfl

theorem insertChange_noMatch (a b c : String) (rs : List Release)
    (h : ∀ r ∈ rs, r.name ≠ b) : insertChange a b c rs = rs := by
  unfold insertChange
  conv_rhs => rw [← List.map_id rs]
  refine List.map_congr_left ?_
  intro r hr
  rw [if_neg (h r hr)]
  rfl

theorem dispatchComment_noMatch (st : ParserState)
    (h : ∀ r ∈ st.releases, r.name ≠ st.name) : dispatchComment st = st.releases := by
  unfold dispatchComment
  split_ifs <;>
    first
      | exact insertFix_noMatch _ _ _ _ h
      | exact insertFeature_noMatch _ _ _ _ h
      | exact insertMaintenance_noMatch _ _ _ _ h
      | exact insertChange_noMatch _ _ _ _ h

theorem flushStage_noMatch (st : ParserState)
    (h : ∀ r ∈ st.releases, r.name ≠ st.name) : (flushStage st).releases = st.releases := by
  unfold flushStage
  split <;> simp [dispatchComment_noMatch st h]

theorem stepLine_no_heading (st : ParserState) (raw : String)
    (hh : prefOf "## ".data raw.data = false)
    (hn : st.name = "") (hr : ∀ r ∈ st.releases, r.name ≠ "") :
    (stepLine st raw).name = "" ∧ (stepLine st raw).releases = st.releases := by
  have hh' : prefOf "## ".data (trimRightGo raw).data = false := by
    cases hq : prefOf "## ".data (trimRightGo raw).data
    · rfl
    · rw [prefOf_of_trim _ _ hq] at hh
      cases hh
  have hmatch : ∀ r ∈ st.releases, r.name ≠ st.name := by
    rw [hn]
    exact hr
  have hflush : (flushStage st).releases = st.releases := flushStage_noMatch st hmatch
  rcases hd : (trimRightGo raw).data with _ | ⟨c, t⟩
  · simp [stepLine, hd, hn]
  · simp only [stepLine, hd]
    by_cases hcont : c ≠ '#' ∧ c ≠ '*'
    · rw [if_pos hcont]
      exact ⟨hn, rfl⟩
    · rw [if_neg hcont]
      have hHead : headingStage (trimRightGo raw) (flushStage st) = flushStage st := by
        unfold headingStage
        rw [if_neg (by simp [hh'])]
      rw [hHead]
      split
      · exact ⟨by rw [flushStage_name, hn], hflush⟩
      · constructor
        · rw [bulletStage_name, categoryStage_name, flushStage_name, hn]
        · rw [bulletStage_releases, categoryStage_releases, hflush]

theorem parseLines_no_heading_aux (lines : List String) (st : ParserState)
    (hl : ∀ l ∈ lines, prefOf "## ".data l.data = false)
    (hn : st.name = "") (hr : ∀ r ∈ st.releases, r.name ≠ "") :
    (lines.foldl stepLine st).releases = st.releases := by
  induction lines generalizing st with
  | nil => rfl
  | cons l rest ih =>
    rw [List.foldl_cons]
    obtain ⟨h1, h2⟩ := stepLine_no_heading st l (hl l (by simp)) hn hr
    rw [ih (stepLine st l) (fun x hx => hl x (by simp [hx])) h1 (by rw [h2]; exact hr), h2]

theorem stepLine_comment_cleared (st : ParserState) (raw : String)
    (hne : st.comment ≠ "") (hz : (stepLine st raw).comment = "") :
    prefOf "## ".data (trimRightGo raw).data = true ∨
    (prefOf "### ".data (trimRightGo raw).data = true ∧
      (containsSub "Fixes".data (trimRightGo raw).data = true ∨
       containsSub "Features".data (trimRightGo raw).data = true ∨
       containsSub "Chore & Maintenance".data (trimRightGo raw).data = true)) ∨
    prefOf "* ".data (trimRightGo raw).data = true := by
  rcases hd : (trimRightGo raw).data with _ | ⟨c, t⟩
  · have hid : stepLine st raw = st := by simp [stepLine, hd]
    rw [hid] at hz
    exact absurd hz hne
  · by_cases hcont : c ≠ '#' ∧ c ≠ '*'
    · have hc : (stepLine st raw).comment =
          st.comment ++ "\n" ++ trimSpaceGo (trimRightGo raw) := by
        simp [stepLine, hd, hcont]
      rw [hc] at hz
      exact absurd hz (comment_extend_ne _ _)
    · by_cases hH : prefOf "## ".data (trimRightGo raw).data = true
      · exact Or.inl (hd ▸ hH)
      · have hHf : prefOf "## ".data (trimRightGo raw).data = false := by
          cases hq : prefOf "## ".data (trimRightGo raw).data
          · rfl
          · exact absurd hq hH
        have hHead : headingStage (trimRightGo raw) (flushStage st) = flushStage st := by
          unfold headingStage
          rw [if_neg (by simp [hHf])]
        have hstep : stepLine st raw =
            (if matchesVersion (flushStage st).release = false then flushStage st
             else bulletStage (trimRightGo raw)
                    (categoryStage (trimRightGo raw) (flushStage st))) := by
          simp only [stepLine, hd]
          rw [if_neg hcont, hHead]
        rw [hstep] at hz
        split at hz
        · rw [flushStage_comment] at hz
          exact absurd hz hne
        · by_cases hB : prefOf "* ".data (trimRightGo raw).data = true
          · exact Or.inr (Or.inr (hd ▸ hB))
          · have hbul : bulletStage (trimRightGo raw)
                (categoryStage (trimRightGo raw) (flushStage st)) =
                categoryStage (trimRightGo raw) (flushStage st) := by
              unfold bulletStage
              rw [if_neg hB]
            rw [hbul] at hz
            by_cases h3 : prefOf "### ".data (trimRightGo raw).data = true
            · unfold categoryStage at hz
              rw [if_pos h3] at hz
              by_cases hF : containsSub "Fixes".data (trimRightGo raw).data = true
              · exact Or.inr (Or.inl ⟨hd ▸ h3, Or.inl (hd ▸ hF)⟩)
              · rw [if_neg hF] at hz
                by_cases hFe : containsSub "Features".data (trimRightGo raw).data = true
                · exact Or.inr (Or.inl ⟨hd ▸ h3, Or.inr (Or.inl (hd ▸ hFe))⟩)
                · rw [if_neg hFe] at hz
                  by_cases hC : containsSub "Chore & Maintenance".data
                      (trimRightGo raw).data = true
                  · exact Or.inr (Or.inl ⟨hd ▸ h3, Or.inr (Or.inr (hd ▸ hC))⟩)
                  · rw [if_neg hC, flushStage_comment] at hz
                    exact absurd hz hne
            · have hcatf : categoryStage (trimRightGo raw) (flushStage st) =
                  flushStage st := by
                unfold categoryStage
                rw [if_neg h3]
              rw [hcatf, flushStage_comment] at hz
              exact absurd hz hne

theorem stepLine_hash_keeps_comment (st : ParserState) :
    (stepLine st "# a").comment = st.comment := by
  have hd : (trimRightGo "# a").data = ['#', ' ', 'a'] := rfl
  simp only [stepLine, hd, headingStage, categoryStage, bulletStage]
  simp only [prefOf]
  simp [flushStage_comment]

theorem asStrList_round (l : List String) :
    asStrList (some (JVal.arr (l.map JVal.str))) = l := by
  simp only [asStrList]
  induction l with
  | nil => rfl
  | cons a as ih => simpa using ih

theorem asStrList_none : asStrList none = [] := rfl

theorem asString_none : asString none = "" := rfl

theorem roundCommit (c : Commit) : Commit.fromJson (Commit.toJson c) = c := by
  cases c with
  | mk sha url =>
    by_cases h1 : sha = "" <;> by_cases h2 : url = "" <;>
      simp [Commit.toJson, Commit.fromJson, lookupKey, asString, h1, h2]

theorem roundNotes (n : ReleaseNotes) : ReleaseNotes.fromJson (ReleaseNotes.toJson n) = n := by
  cases n with
  | mk rn v fx ft mt ch =>
    by_cases h1 : rn = "" <;> by_cases h2 : v = "" <;> by_cases h3 : fx = [] <;>
      by_cases h4 : ft = [] <;> by_cases h5 : mt = [] <;> by_cases h6 : ch = [] <;>
      simp [ReleaseNotes.toJson, ReleaseNotes.fromJson, lookupKey, asString_none,
            asStrList_none, asString, asStrList_round, h1, h2, h3, h4, h5, h6]

theorem roundRelease (r : Release) : Release.fromJson (Release.toJson r) = r := by
  cases r with
  | mk nm z t c notes =>
    by_cases h1 : nm = "" <;> by_cases h2 : z = "" <;> by_cases h3 : t = "" <;>
      cases notes <;>
      simp [Release.toJson, Release.fromJson, lookupKey, asString_none, asString,
            roundCommit, roundNotes, h1, h2, h3]

/- Claim theorems. -/

/-- C1, counterexample: on exactly the three lines "## jest 24.0.0",
"### Fixes", "* fixed the thing" the parser leaves store1 (which contains a
release named "v24.0.0" with no notes) completely unchanged — the bullet text
only sits in the comment buffer — so it does not attach a fixes entry, and
the claimed result store1Fixed differs from what is produced. -/
theorem claim_c1_counterexample :
    parseChangelog "## jest 24.0.0\n### Fixes\n* fixed the thing" store1 = store1 ∧
    (parseLines ["## jest 24.0.0", "### Fixes", "* fixed the thing"] store1).comment =
      "fixed the thing" ∧
    store1 ≠ store1Fixed := by
  refine ⟨by decide, by decide, by decide⟩

/-- C1, amended: once the three lines are followed by a boundary line (here
"## end"), the parse attaches exactly one fixes entry "fixed the thing" to
the release named "v24.0.0", and is a no-op on a store with no release of
that name; on the three-line input alone nothing is attached because the
trailing buffered comment is not flushed at end of input. -/
theorem claim_c1 :
    parseChangelog "## jest 24.0.0\n### Fixes\n* fixed the thing\n## end" store1 =
      store1Fixed ∧
    parseChangelog "## jest 24.0.0\n### Fixes\n* fixed the thing\n## end" storeOther =
      storeOther := by
  refine ⟨by decide, by decide⟩

/-- C2: a line that after trimming is empty or starts with neither '#' nor
'*' never changes the store, and since the parser is exactly the fold of
stepLine over the lines, a comment still buffered at end of input is not
flushed: after the three-line input of C1 the buffer holds "fixed the thing",
the store is unchanged, yet dispatching that buffer would have changed it. -/
theorem claim_c2 :
    (∀ (st : ParserState) (raw : String), isBoundaryLine raw = false →
        (stepLine st raw).releases = st.releases) ∧
    (parseLines ["## jest 24.0.0", "### Fixes", "* fixed the thing"] store1).comment =
      "fixed the thing" ∧
    parseChangelog "## jest 24.0.0\n### Fixes\n* fixed the thing" store1 = store1 ∧
    dispatchComment (parseLines ["## jest 24.0.0", "### Fixes", "* fixed the thing"]
      store1) ≠ store1 := by
  exact ⟨stepLine_nonBoundary, by decide, by decide, by decide⟩

theorem claim_c2_witness :
    (stepLine (initState store1) "pending text").releases = store1 :=
  claim_c2.1 (initState store1) "pending text" (by decide)

/-- C3: a nonempty comment buffer becomes empty only on a release heading, a
recognised category heading, or a bullet line; a flushing line such as "# a"
leaves the buffer intact; consequently on "## jest 1.0.0", "* dup", "# a",
"# b" the same text "dup" is appended to the changes of "v1.0.0" twice. -/
theorem claim_c3 :
    (∀ (st : ParserState) (raw : String), st.comment ≠ "" →
        (stepLine st raw).comment = "" →
        prefOf "## ".data (trimRightGo raw).data = true ∨
        (prefOf "### ".data (trimRightGo raw).data = true ∧
          (containsSub "Fixes".data (trimRightGo raw).data = true ∨
           containsSub "Features".data (trimRightGo raw).data = true ∨
           containsSub "Chore & Maintenance".data (trimRightGo raw).data = true)) ∨
        prefOf "* ".data (trimRightGo raw).data = true) ∧
    (∀ st : ParserState, (stepLine st "# a").comment = st.comment) ∧
    parseChangelog "## jest 1.0.0\n* dup\n# a\n# b" storeV1 = storeV1DoubleDup := by
  exact ⟨stepLine_comment_cleared, stepLine_hash_keeps_comment, by decide⟩

theorem claim_c3_witness :
    prefOf "## ".data (trimRightGo "## r 2.0.0").data = true ∨
    (prefOf "### ".data (trimRightGo "## r 2.0.0").data = true ∧
      (containsSub "Fixes".data (trimRightGo "## r 2.0.0").data = true ∨
       containsSub "Features".data (trimRightGo "## r 2.0.0").data = true ∨
       containsSub "Chore & Maintenance".data (trimRightGo "## r 2.0.0").data = true)) ∨
    prefOf "* ".data (trimRightGo "## r 2.0.0").data = true :=
  claim_c3.1
    { release := "jest 1.0.0", name := "v1.0.0", comment := "x", fixes := false,
      features := false, maintenance := false, releases := storeV1 }
    "## r 2.0.0" (by decide) (by decide)

/-- C4: on every trimmed line with prefix "## " the parser sets the release
heading to the remainder, the version tag to "v" followed by the first
regexp match of the remainder (exactly "v" when there is none), clears the
comment buffer and resets all category flags to the default. -/
theorem claim_c4 (st : ParserState) (raw : String)
    (hp : prefOf "## ".data (trimRightGo raw).data = true) :
    (stepLine st raw).release = String.mk ((trimRightGo raw).data.drop 3) ∧
    (stepLine st raw).name =
      "v" ++ String.mk ((findVersion ((trimRightGo raw).data.drop 3)).getD []) ∧
    (findVersion ((trimRightGo raw).data.drop 3) = none → (stepLine st raw).name = "v") ∧
    (stepLine st raw).comment = "" ∧
    (stepLine st raw).fixes = false ∧
    (stepLine st raw).features = false ∧
    (stepLine st raw).maintenance = false := by
  obtain ⟨t, ht⟩ := (prefOf_eq_true_iff _ _).mp hp
  have ht' : (trimRightGo raw).data = '#' :: '#' :: ' ' :: t := by simpa using ht
  simp only [stepLine, ht', headingStage, categoryStage, bulletStage]
  simp only [prefOf]
  simp [ht', string_append_nil]
  intro h
  rw [h]
  exact string_append_nil "v"

theorem claim_c4_witness :
    ((stepLine (initState store1) "## jest 24.0.0").release = "jest 24.0.0" ∧
     (stepLine (initState store1) "## jest 24.0.0").name = "v24.0.0" ∧
     (stepLine (initState store1) "## jest 24.0.0").comment = "") ∧
    (stepLine (initState store1) "## nothing").name = "v" := by
  constructor
  · have h := claim_c4 (initState store1) "## jest 24.0.0" (by decide)
    exact ⟨h.1.trans (by decide), h.2.1.trans (by decide), h.2.2.2.1⟩
  · have h2 := claim_c4 (initState store1) "## nothing" (by decide)
    exact h2.2.2.1 (by decide)

/-- C5: on every trimmed line with prefix "### ", processed inside a section
whose heading contains a version, the substrings "Fixes", "Features",
"Chore & Maintenance" are checked in that order; the first match sets the
matching category flag alone and clears the comment buffer, and a line
containing none of the three leaves all category flags at their previous
values. -/
theorem claim_c5 (st : ParserState) (raw : String)
    (hp : prefOf "### ".data (trimRightGo raw).data = true)
    (hv : matchesVersion st.release = true) :
    (containsSub "Fixes".data (trimRightGo raw).data = true →
       (stepLine st raw).fixes = true ∧ (stepLine st raw).features = false ∧
       (stepLine st raw).maintenance = false ∧ (stepLine st raw).comment = "") ∧
    (containsSub "Fixes".data (trimRightGo raw).data = false →
     containsSub "Features".data (trimRightGo raw).data = true →
       (stepLine st raw).fixes = false ∧ (stepLine st raw).features = true ∧
       (stepLine st raw).maintenance = false ∧ (stepLine st raw).comment = "") ∧
    (containsSub "Fixes".data (trimRightGo raw).data = false →
     containsSub "Features".data (trimRightGo raw).data = false →
     containsSub "Chore & Maintenance".data (trimRightGo raw).data = true →
       (stepLine st raw).fixes = false ∧ (stepLine st raw).features = false ∧
       (stepLine st raw).maintenance = true ∧ (stepLine st raw).comment = "") ∧
    (containsSub "Fixes".data (trimRightGo raw).data = false →
     containsSub "Features".data (trimRightGo raw).data = false →
     containsSub "Chore & Maintenance".data (trimRightGo raw).data = false →
       (stepLine st raw).fixes = st.fixes ∧ (stepLine st raw).features = st.features ∧
       (stepLine st raw).maintenance = st.maintenance) := by
  obtain ⟨t, ht⟩ := (prefOf_eq_true_iff _ _).mp hp
  have ht' : (trimRightGo raw).data = '#' :: '#' :: '#' :: ' ' :: t := by simpa using ht
  have eF : "Fixes".data = ['F', 'i', 'x', 'e', 's'] := rfl
  have eFe : "Features".data = ['F', 'e', 'a', 't', 'u', 'r', 'e', 's'] := rfl
  have eC : "Chore & Maintenance".data =
      ['C', 'h', 'o', 'r', 'e', ' ', '&', ' ', 'M', 'a', 'i', 'n', 't', 'e', 'n', 'a',
       'n', 'c', 'e'] := rfl
  refine ⟨?_, ?_, ?_, ?_⟩
  · intro hF
    rw [eF, ht'] at hF
    simp only [stepLine, ht', headingStage, categoryStage, bulletStage]
    simp only [prefOf]
    simp [ht', hF, hv, flushStage_release, flushStage_comment, flushStage_fixes,
          flushStage_features, flushStage_maintenance]
  · intro hF hFe
    rw [eF, ht'] at hF
    rw [eFe, ht'] at hFe
    simp only [stepLine, ht', headingStage, categoryStage, bulletStage]
    simp only [prefOf]
    simp [ht', hF, hFe, hv, flushStage_release, flushStage_comment, flushStage_fixes,
          flushStage_features, flushStage_maintenance]
  · intro hF hFe hC
    rw [eF, ht'] at hF
    rw [eFe, ht'] at hFe
    rw [eC, ht'] at hC
    simp only [stepLine, ht', headingStage, categoryStage, bulletStage]
    simp only [prefOf]
    simp [ht', hF, hFe, hC, hv, flushStage_release, flushStage_comment, flushStage_fixes,
          flushStage_features, flushStage_maintenance]
  · intro hF hFe hC
    rw [eF, ht'] at hF
    rw [eFe, ht'] at hFe
    rw [eC, ht'] at hC
    simp only [stepLine, ht', headingStage, categoryStage, bulletStage]
    simp only [prefOf]
    simp [ht', hF, hFe, hC, hv, flushStage_release, flushStage_comment, flushStage_fixes,
          flushStage_features, flushStage_maintenance]

theorem claim_c5_witness :
    (stepLine catState "### Fixes").fixes = true ∧
    (stepLine catState "### Fixes").comment = "" := by
  have h := (claim_c5 catState "### Fixes" (by decide) (by decide)).1 (by decide)
  exact ⟨h.1, h.2.2.2⟩

/-- C6, counterexample: the input "hello\n# x" contains no line beginning
with "## ", yet parsing it against a store holding a release whose name is
the empty string changes that store — the boundary line "# x" flushes the
buffered continuation into every release whose name equals the still-empty
version tag. -/
theorem claim_c6_counterexample :
    splitLinesGo "hello\n# x" = ["hello", "# x"] ∧
    prefOf "## ".data "hello".data = false ∧
    prefOf "## ".data "# x".data = false ∧
    parseChangelog "hello\n# x" storeEmptyName ≠ storeEmptyName := by
  refine ⟨by decide, by decide, by decide, by decide⟩

/-- C6, amended: for every store in which no release has the empty name, a
changelog input none of whose lines begins with "## " leaves the store
completely unchanged. -/
theorem claim_c6 (s : String) (rs : List Release)
    (hl : ∀ l ∈ splitLinesGo s, prefOf "## ".data l.data = false)
    (hr : ∀ r ∈ rs, r.name ≠ "") :
    parseChangelog s rs = rs := by
  unfold parseChangelog parseLines
  exact parseLines_no_heading_aux (splitLinesGo s) (initState rs) hl rfl hr

theorem claim_c6_witness : parseChangelog "hello\n# x" store1 = store1 :=
  claim_c6 "hello\n# x" store1 (by decide) (by decide)

/-- C7: the bullet "* first line" followed by the continuation line
"  second line" accumulates the single buffer "first line\nsecond line"
(continuation trimmed, joined by one newline), and once dispatched by a
boundary line it yields exactly one entry with that text. -/
theorem claim_c7 :
    (parseLines ["## jest 1.0.0", "* first line", "  second line"] storeV1).comment =
      "first line\nsecond line" ∧
    parseChangelog "## jest 1.0.0\n* first line\n  second line\n# end" storeV1 =
      storeV1Multiline := by
  refine ⟨by decide, by decide⟩

/-- C8: serialising any release store to the JSON value tree and
deserialising it back yields the original store field for field; the omitted
empty optional fields come back as their Go zero values, which coincide with
the omitted originals. -/
theorem claim_c8 (rs : List Release) : deserializeReleases (serializeReleases rs) = rs := by
  simp only [serializeReleases, deserializeReleases, List.map_map]
  conv_rhs => rw [← List.map_id rs]
  refine List.map_congr_left ?_
  intro r _
  exact roundRelease r

/-- C9: for every changelog input and store the parser preserves the list of
releases position by position — same length, and same name, zipballUrl,
tarballUrl and commit everywhere — so its only mutation is through the
optional releaseNotes. -/
theorem claim_c9 (s : String) (rs : List Release) :
    (parseChangelog s rs).map frameSig = rs.map frameSig ∧
    (parseChangelog s rs).length = rs.length := by
  have h : (parseChangelog s rs).map frameSig = rs.map frameSig :=
    parseLines_frame (splitLinesGo s) (initState rs)
  exact ⟨h, by simpa using congrArg List.length h⟩

/-- C10: each insert loop walks the whole store, so every element whose name
equals the derived version tag — duplicates included — receives the appended
entry in the matching category and has releaseName and version overwritten,
while the store length never changes. -/
theorem claim_c10 (rs : List Release) (rel nm c : String) (i : Nat) (r : Release)
    (hi : rs[i]? = some r) (hn : r.name = nm) :
    (insertFix rel nm c rs)[i]? = some (updFix rel nm c r) ∧
    (insertFeature rel nm c rs)[i]? = some (updFeature rel nm c r) ∧
    (insertMaintenance rel nm c rs)[i]? = some (updMaintenance rel nm c r) ∧
    (insertChange rel nm c rs)[i]? = some (updChange rel nm c r) ∧
    (insertFix rel nm c rs).length = rs.length ∧
    (insertFeature rel nm c rs).length = rs.length ∧
    (insertMaintenance rel nm c rs).length = rs.length ∧
    (insertChange rel nm c rs).length = rs.length := by
  refine ⟨?_, ?_, ?_, ?_, ?_, ?_, ?_, ?_⟩ <;>
    simp [insertFix, insertFeature, insertMaintenance, insertChange, updFix, updFeature,
          updMaintenance, updChange, List.getElem?_map, hi, hn]

theorem claim_c10_witness :
    (insertFix "jest 9.0.0" "v9.0.0" "note" storeDup)[0]? =
      some (updFix "jest 9.0.0" "v9.0.0" "note" dupA) ∧
    (insertFix "jest 9.0.0" "v9.0.0" "note" storeDup)[1]? =
      some (updFix "jest 9.0.0" "v9.0.0" "note" dupB) :=
  ⟨(claim_c10 storeDup "jest 9.0.0" "v9.0.0" "note" 0 dupA (by decide) (by decide)).1,
   (claim_c10 storeDup "jest 9.0.0" "v9.0.0" "note" 1 dupB (by decide) (by decide)).1⟩
